import Mathlib

/-!
Verification development for the chess rules engine of this repository
(src/chess/src/board.py and src/chess/src/chess.py), as a shallow embedding:
Python classes become Lean structures, methods become functions, `ValueError`
raising becomes `Except ChessError`, and in-place mutation of an object becomes
a function returning the updated value.  Two attributes that the engine calls
but that are missing from the source (`Board.is_empty` and
`Board.pieces_on_board`) are modelled from the specification and marked as such
in their doc comments.
-/

set_option autoImplicit false

namespace ChessSpec

/-- Piece color (board.py class Color).  `W.value = 0`, `B.value = 1`. -/
inductive Color where
  | W
  | B
deriving DecidableEq, Repr

/-- The integer `value` of the Color enum member, as Python exposes it. -/
def Color.value : Color → Int
  | .W => 0
  | .B => 1

/-- Piece type (board.py class PieceType): pawn, knight, bishop, rook, queen, king. -/
inductive PieceType where
  | P
  | N
  | B
  | R
  | Q
  | K
deriving DecidableEq, Repr

/-- A chess piece (board.py class Piece): a color and a type, both fixed at
construction.  Equality of these embedded values is componentwise; the Python
class defines no custom equality, which claim C7 examines separately via
`PieceObj`. -/
structure Piece where
  color : Color
  ptype : PieceType
deriving DecidableEq, Repr

/-- A board coordinate, `tuple[int, int]` of (rank, file) in the source.
Arbitrary integers are representable; validity is a separate check. -/
abbrev Position := Int × Int

/-- Every distinct `ValueError` message the engine can raise, one constructor
per message string:
* `invalidPosition`        - board.py "Invalid position"
* `alreadyOccupied`        - board.py add_piece "Position already occupied"
* `invalidMoveMsg`         - board.py move_piece "Invalid move"
* `sameSquareMoveMsg`      - board.py move_piece "Can not move to same square"
* `invalidCaptureMsg`      - board.py capture_piece "Invalid Move"
* `sameSquareCaptureMsg`   - board.py capture_piece "Can not capture on same square"
* `gameInvalidPosition`    - chess.py list_legal_moves "Game Error: invalid position"
* `degenerateDirection`    - chess.py _long_moves direction (0,0) error
* `emptyLongMoves`         - chess.py _long_moves empty starting square error -/
inductive ChessError where
  | invalidPosition
  | alreadyOccupied
  | invalidMoveMsg
  | sameSquareMoveMsg
  | invalidCaptureMsg
  | sameSquareCaptureMsg
  | gameInvalidPosition
  | degenerateDirection
  | emptyLongMoves
deriving DecidableEq, Repr

instance {ε α : Type} [DecidableEq ε] [DecidableEq α] : DecidableEq (Except ε α) := by
  intro a b
  cases a <;> cases b
  case error.error e e' =>
    exact if h : e = e' then .isTrue (by rw [h]) else .isFalse (by intro hc; cases hc; exact h rfl)
  case error.ok e a' => exact .isFalse (by intro hc; cases hc)
  case ok.error a' e => exact .isFalse (by intro hc; cases hc)
  case ok.ok x y =>
    exact if h : x = y then .isTrue (by rw [h]) else .isFalse (by intro hc; cases hc; exact h rfl)

/-- The chess board (board.py class Board).  The Python `_board` is a fixed
8 x 8 list of optional pieces indexed by validated (rank, file) pairs; every
access in the source is guarded by `is_valid_position`, so the grid is embedded
as its lookup function on positions. -/
structure Board where
  cell : Position → Option Piece

namespace Board

/-- board.py Board.__init__: an 8 x 8 board with every square empty. -/
def init : Board := ⟨fun _ => none⟩

/-- board.py is_valid_position: both coordinates between 0 and 7. -/
def is_valid_position (pos : Position) : Bool :=
  0 ≤ pos.1 && pos.1 ≤ 7 && 0 ≤ pos.2 && pos.2 ≤ 7

/-- Write one square of the grid (the embedding of `self._board[r][f] = v`). -/
def setCell (b : Board) (pos : Position) (v : Option Piece) : Board :=
  ⟨fun q => if q = pos then v else b.cell q⟩

/-- board.py get_piece: the occupant of the square, after validating the
position. -/
def get_piece (b : Board) (pos : Position) : Except ChessError (Option Piece) :=
  if ¬ is_valid_position pos then .error .invalidPosition
  else .ok (b.cell pos)

/-- Modelled from the spec: `Board.is_empty` is called by
`ChessStub.list_legal_moves` (chess.py lines 133 and 139) but is defined
nowhere in the source.  Spec section 4.1: "isEmpty(pos) -> bool: same validity
contract; true iff no occupant." -/
def is_empty (b : Board) (pos : Position) : Except ChessError Bool :=
  if ¬ is_valid_position pos then .error .invalidPosition
  else .ok (b.cell pos).isNone

/-- board.py add_piece: place a piece on an empty valid square. -/
def add_piece (b : Board) (piece : Piece) (pos : Position) : Except ChessError Board :=
  if ¬ is_valid_position pos then .error .invalidPosition
  else
    match b.cell pos with
    | none => .ok (b.setCell pos (some piece))
    | some _ => .error .alreadyOccupied

/-- board.py remove_piece: clear a valid square, returning its previous
occupant (possibly none) together with the updated board. -/
def remove_piece (b : Board) (pos : Position) : Except ChessError (Option Piece × Board) :=
  if ¬ is_valid_position pos then .error .invalidPosition
  else .ok (b.cell pos, b.setCell pos none)

/-- board.py move_piece, statement by statement: `get_piece(pos1)` (which can
raise InvalidPosition) then, short-circuiting as the Python `or` does,
`get_piece(pos2)`; "Invalid move" if pos1 is empty or pos2 is occupied; the
same-square message next; otherwise remove from pos1 and add at pos2.  The
`none` branch of the final match is unreachable (pos1 was checked non-empty and
the board is unchanged up to that point); Python would store the `None` value,
leaving pos2 empty, which the branch reproduces. -/
def move_piece (b : Board) (pos1 pos2 : Position) : Except ChessError Board := do
  let p1 ← b.get_piece pos1
  if p1.isNone then throw .invalidMoveMsg
  else do
    let p2 ← b.get_piece pos2
    if p2.isSome then throw .invalidMoveMsg
    else if pos1 = pos2 then throw .sameSquareMoveMsg
    else do
      let rm ← b.remove_piece pos1
      match rm.1 with
      | some moved => rm.2.add_piece moved pos2
      | none => .ok (rm.2.setCell pos2 none)

/-- board.py capture_piece: requires both squares occupied and distinct;
removes the piece at pos2, then performs move_piece(pos1, pos2) on the updated
board; returns the captured occupant of pos2 with the final board. -/
def capture_piece (b : Board) (pos1 pos2 : Position) :
    Except ChessError (Option Piece × Board) := do
  let p1 ← b.get_piece pos1
  if p1.isNone then throw .invalidCaptureMsg
  else do
    let p2 ← b.get_piece pos2
    if p2.isNone then throw .invalidCaptureMsg
    else if pos1 = pos2 then throw .sameSquareCaptureMsg
    else do
      let rm ← b.remove_piece pos2
      let b2 ← rm.2.move_piece pos1 pos2
      pure (rm.1, b2)

/-- board.py clear: every square of the grid is set to None. -/
def clear (_b : Board) : Board := ⟨fun _ => none⟩

/-- board.py Board.first_rank_setup: the back-rank piece order. -/
def first_rank_setup : List PieceType :=
  [PieceType.R, PieceType.N, PieceType.B, PieceType.Q,
   PieceType.K, PieceType.B, PieceType.N, PieceType.R]

/-- board.py set_up: clear, then for i in range(8) place the black back rank on
rank 0, black pawns on rank 1, white pawns on rank 6 and the white back rank on
rank 7 (each via add_piece, whose failure would propagate).  The list index
first_rank_setup[i] is embedded with getD; i ranges over 0..7 and the list has
length 8, so the default is never taken. -/
def set_up (b : Board) : Except ChessError Board :=
  let b := b.clear
  (List.range 8).foldlM (fun b i => do
    let b ← b.add_piece ⟨Color.B, first_rank_setup.getD i PieceType.P⟩ (0, (i : Int))
    let b ← b.add_piece ⟨Color.B, PieceType.P⟩ (1, (i : Int))
    let b ← b.add_piece ⟨Color.W, PieceType.P⟩ (6, (i : Int))
    let b ← b.add_piece ⟨Color.W, first_rank_setup.getD i PieceType.P⟩ (7, (i : Int))
    pure b) b

/-- Modelled from the spec: `Board.pieces_on_board` is read by
`ChessStub.is_in_check` (chess.py line 60) but is defined nowhere in the
source.  Spec section 4.3 says check detection "scans every occupied square":
the mapping from each valid occupied position to its occupant, enumerated in
row-major order. -/
def pieces_on_board (b : Board) : List (Position × Piece) :=
  (List.range 8).flatMap (fun (r : Nat) =>
    (List.range 8).filterMap (fun (f : Nat) =>
      let p : Position := ((r : Int), (f : Int))
      (b.cell p).map (fun piece => (p, piece))))

end Board

section Sanity

example : Board.is_valid_position (0, 0) = true := by decide
example : Board.is_valid_position (8, 0) = false := by decide
example : Board.init.get_piece (3, 3) = .ok none := by decide

end Sanity

/-- The game state (chess.py class ChessStub): a board, the turn as a Python
int (0 for white, 1 for black), and the captured-piece ledger, a dict with the
two keys "W" and "B" embedded as its two lists. -/
structure ChessStub where
  board : Board
  turn : Int
  captured_W : List String
  captured_B : List String

namespace ChessStub

/-- chess.py ChessStub.__init__: a fresh Board, turn 0, empty ledgers.  No
setup of pieces is performed. -/
def init : ChessStub := ⟨Board.init, 0, [], []⟩

/-- chess.py next_turn: 0 becomes 1, anything else becomes 0. -/
def next_turn (g : ChessStub) : ChessStub :=
  if g.turn = 0 then { g with turn := 1 } else { g with turn := 0 }

/-- chess.py play_move: apply Board.move_piece (propagating its errors,
leaving the state untouched on failure), then next_turn.  The ledger is not
touched. -/
def play_move (g : ChessStub) (pos1 pos2 : Position) : Except ChessError ChessStub := do
  let b ← g.board.move_piece pos1 pos2
  pure (next_turn { g with board := b })

/-- The while loop of chess.py _long_moves, with the step state (i, j) explicit
and fuel bounding the iteration count.  Each iteration inspects (r+i, f+j):
off-board stops; a same-color piece stops without the square; an opposing
piece stops with it; an empty square is kept and i, j each grow by their sign.
From a valid start the loop body can run at most 8 times (on the k-th
iteration the nonzero component of (i, j) has magnitude at least k, so the
8th inspected square is always off-board), hence fuel 8 reproduces the
unbounded Python loop exactly. -/
def long_moves_loop (b : Board) (color : Color) (r f : Int) :
    Int → Int → Nat → List Position
  | _, _, 0 => []
  | i, j, fuel + 1 =>
    let move : Position := (r + i, f + j)
    if Board.is_valid_position move then
      match b.cell move with
      | some q => if q.color = color then [] else [move]
      | none => move :: long_moves_loop b color r f (i + i.sign) (j + j.sign) fuel
    else []

/-- chess.py _long_moves: reject the (0,0) direction, read the moving piece
via get_piece (propagating InvalidPosition), reject an empty start, then run
the ray loop. -/
def long_moves (g : ChessStub) (pos direction : Position) :
    Except ChessError (List Position) := do
  if direction.1 = 0 ∧ direction.2 = 0 then throw .degenerateDirection
  else do
    let start? ← g.board.get_piece pos
    match start? with
    | some piece =>
        pure (long_moves_loop g.board piece.color pos.1 pos.2 direction.1 direction.2 8)
    | none => throw .emptyLongMoves

/-- chess.py list_legal_moves lines 110-189: everything up to (and including)
the `if simulated: return result` exit, i.e. the raw per-piece-type move
generation together with the validity and turn-ownership preamble.  The final
self-check filter of line 191 is added by `list_legal_moves` below; the split
mirrors the bounded mutual recursion of the source, where is_in_check always
calls with simulated=True and therefore never reaches the filter. -/
def list_legal_moves_gen (g : ChessStub) (pos : Position) (simulated : Bool) :
    Except ChessError (List Position) := do
  if ¬ Board.is_valid_position pos then throw .gameInvalidPosition
  else do
    let piece? ← g.board.get_piece pos
    let r := pos.1
    let f := pos.2
    match piece? with
    | none => pure []
    | some piece =>
      if simulated = false ∧ piece.color.value ≠ g.turn then pure []
      else
        match piece.ptype with
        | PieceType.P =>
          let op : Int → Int → Int :=
            if piece.color = Color.W then (· - ·) else (· + ·)
          let start_rank : Int := if piece.color = Color.W then 6 else 1
          let single_move : Position := (op r 1, f)
          let forward : List Position :=
            if Board.is_valid_position single_move ∧
                g.board.is_empty single_move = .ok true then
              let double_move : Position := (op r 2, f)
              if r = start_rank ∧ Board.is_valid_position double_move ∧
                  g.board.is_empty double_move = .ok true then
                [single_move, double_move]
              else [single_move]
            else []
          let captures : List Position :=
            ([-1, 1] : List Int).filterMap (fun i =>
              let capture : Position := (op r 1, f + i)
              if Board.is_valid_position capture ∧
                  (g.board.cell capture).any (fun q => q.color != piece.color) then
                some capture
              else none)
          pure (forward ++ captures)
        | PieceType.N =>
          pure (([(-2, -1), (-2, 1), (-1, -2), (-1, 2),
                  (1, -2), (1, 2), (2, -1), (2, 1)] : List (Int × Int)).filterMap
            (fun d =>
              let move : Position := (r + d.1, f + d.2)
              if Board.is_valid_position move then
                if (g.board.cell move).any (fun q => q.color == piece.color) then none
                else some move
              else none))
        | PieceType.B =>
          ([(-1, -1), (-1, 1), (1, -1), (1, 1)] : List (Int × Int)).foldlM
            (fun acc d => do
              let ms ← g.long_moves pos d
              pure (acc ++ ms)) []
        | PieceType.R =>
          ([(-1, 0), (0, -1), (0, 1), (1, 0)] : List (Int × Int)).foldlM
            (fun acc d => do
              let ms ← g.long_moves pos d
              pure (acc ++ ms)) []
        | PieceType.Q =>
          ([(-1, -1), (-1, 1), (1, -1), (1, 1),
            (-1, 0), (0, -1), (0, 1), (1, 0)] : List (Int × Int)).foldlM
            (fun acc d => do
              let ms ← g.long_moves pos d
              pure (acc ++ ms)) []
        | PieceType.K =>
          pure (([(-1, -1), (-1, 0), (-1, 1), (0, -1),
                  (0, 1), (1, -1), (1, 0), (1, 1)] : List (Int × Int)).filterMap
            (fun d =>
              let move : Position := (r + d.1, f + d.2)
              if Board.is_valid_position move then
                if (g.board.cell move).any (fun q => q.color == piece.color) then none
                else some move
              else none))

/-- The inner loop of chess.py is_in_check (lines 63-66): scan a move list,
reading each target via get_piece; return True on the first king found. -/
def king_scan (b : Board) : List Position → Except ChessError Bool
  | [] => .ok false
  | m :: rest => do
    let target ← b.get_piece m
    match target with
    | some t => if t.ptype = PieceType.K then .ok true else king_scan b rest
    | none => king_scan b rest

/-- The outer loop of chess.py is_in_check (lines 60-66): for each entry of
pieces_on_board whose color value differs from the turn, list the simulated
moves and scan them for a king; the first hit returns True. -/
def check_scan (g : ChessStub) : List (Position × Piece) → Except ChessError Bool
  | [] => .ok false
  | (pos, piece) :: rest =>
    if piece.color.value ≠ g.turn then do
      let moves ← g.list_legal_moves_gen pos true
      let hit ← king_scan g.board moves
      if hit then .ok true else check_scan g rest
    else check_scan g rest

/-- chess.py is_in_check: the scan over pieces_on_board.  The calls
`self.list_legal_moves(pos, simulated=True)` take the simulated exit of the
source method, which is exactly `list_legal_moves_gen` with simulated = true
(`list_legal_moves_simulated_eq_gen` below). -/
def is_in_check (g : ChessStub) : Except ChessError Bool :=
  check_scan g g.board.pieces_on_board

/-- chess.py _would_be_check (lines 231-239) with the receiver threaded
explicitly: the result is paired with the live receiver as it stands after the
call.  Line 235 binds game_copy to an independent deep copy of the receiver
(in the embedding, the value g itself); play_move and next_turn are invoked on
game_copy only, so every exit returns the untouched receiver g, including the
error exit (play_move raises on a pseudo-legal capture, because
Board.move_piece rejects occupied destinations, and the exception propagates
before any write to the receiver). -/
def would_be_check_st (g : ChessStub) (pos1 pos2 : Position) :
    Except ChessError Bool × ChessStub :=
  let game_copy := g
  match game_copy.play_move pos1 pos2 with
  | .error e => (.error e, g)
  | .ok gc => ((gc.next_turn).is_in_check, g)

/-- chess.py _would_be_check, result component. -/
def would_be_check (g : ChessStub) (pos1 pos2 : Position) : Except ChessError Bool :=
  (g.would_be_check_st pos1 pos2).1

/-- The line-191 list comprehension of chess.py list_legal_moves with the
receiver threaded: evaluate _would_be_check for each candidate in order,
keeping those for which it is false; an exception propagates with the live
receiver as _would_be_check left it. -/
def legal_filter_st (g : ChessStub) (pos : Position) :
    List Position → Except ChessError (List Position) × ChessStub
  | [] => (.ok [], g)
  | m :: rest =>
    match g.would_be_check_st pos m with
    | (.error e, g1) => (.error e, g1)
    | (.ok c, g1) =>
      match legal_filter_st g1 pos rest with
      | (.error e, g2) => (.error e, g2)
      | (.ok ms, g2) => (.ok (if c then ms else m :: ms), g2)

/-- chess.py list_legal_moves in full, with the receiver threaded: the
generation phase (lines 110-189, which only reads the receiver), the simulated
exit, and otherwise the line-191 filter. -/
def list_legal_moves_st (g : ChessStub) (pos : Position) (simulated : Bool) :
    Except ChessError (List Position) × ChessStub :=
  match g.list_legal_moves_gen pos simulated with
  | .error e => (.error e, g)
  | .ok result =>
    if simulated then (.ok result, g)
    else legal_filter_st g pos result

/-- chess.py list_legal_moves, result component. -/
def list_legal_moves (g : ChessStub) (pos : Position) (simulated : Bool) :
    Except ChessError (List Position) :=
  (g.list_legal_moves_st pos simulated).1

/-- A sequence of play_move calls, failing as soon as one fails (helper for
stating turn alternation, claim C8). -/
def play_moves (g : ChessStub) : List (Position × Position) → Except ChessError ChessStub
  | [] => .ok g
  | m :: rest => do
    let g1 ← g.play_move m.1 m.2
    play_moves g1 rest

/-- The turn after a sequence of successful play_move calls (helper for
claim C8). -/
def turn_after (g : ChessStub) (ms : List (Position × Position)) : Except ChessError Int :=
  (g.play_moves ms).map ChessStub.turn

end ChessStub

section Sanity2

example : ChessStub.init.turn = 0 := rfl
example : ChessStub.init.is_in_check = .ok false := by decide

end Sanity2

/-! ### Basic lemmas about the monadic embedding -/

theorem except_bind_ok {ε α β : Type} (a : α) (f : α → Except ε β) :
    (Except.ok a >>= f) = f a := rfl

theorem except_bind_error {ε α β : Type} (e : ε) (f : α → Except ε β) :
    ((Except.error e : Except ε α) >>= f) = Except.error e := rfl

theorem except_throw {ε α : Type} (e : ε) : (throw e : Except ε α) = Except.error e := rfl

theorem except_pure {ε α : Type} (a : α) : (pure a : Except ε α) = Except.ok a := rfl

theorem cell_setCell (b : Board) (p q : Position) (v : Option Piece) :
    (b.setCell p v).cell q = if q = p then v else b.cell q := rfl

theorem get_piece_of_valid (b : Board) (p : Position)
    (h : Board.is_valid_position p = true) : b.get_piece p = .ok (b.cell p) := by
  simp [Board.get_piece, h]

theorem is_empty_of_valid (b : Board) (p : Position)
    (h : Board.is_valid_position p = true) : b.is_empty p = .ok (b.cell p).isNone := by
  simp [Board.is_empty, h]

/-- A single closed-form description of board.py move_piece: the error cases in
the order the source tests them, and otherwise the two-square update.  The
same-square branch is reachable only with pos1 occupied and pos2 empty, which
pos1 = pos2 makes impossible. -/
theorem move_piece_eq (b : Board) (p1 p2 : Position) :
    b.move_piece p1 p2 =
      if Board.is_valid_position p1 = false then .error ChessError.invalidPosition
      else if b.cell p1 = none then .error ChessError.invalidMoveMsg
      else if Board.is_valid_position p2 = false then .error ChessError.invalidPosition
      else if (b.cell p2).isSome then .error ChessError.invalidMoveMsg
      else if p1 = p2 then .error ChessError.sameSquareMoveMsg
      else
        match b.cell p1 with
        | some pc => .ok ((b.setCell p1 none).setCell p2 (some pc))
        | none => .error ChessError.invalidMoveMsg := by
  by_cases h1 : Board.is_valid_position p1
  · by_cases hc1 : b.cell p1 = none
    · simp [Board.move_piece, Board.get_piece, h1, hc1, except_bind_ok, except_throw]
    · obtain ⟨pc, hpc⟩ := Option.ne_none_iff_exists'.mp hc1
      by_cases h2 : Board.is_valid_position p2
      · by_cases hc2 : (b.cell p2).isSome
        · simp [Board.move_piece, Board.get_piece, h1, h2, hpc, hc2,
            except_bind_ok, except_throw]
        · by_cases heq : p1 = p2
          · subst heq
            rw [hpc] at hc2
            simp at hc2
          · have hc2n : b.cell p2 = none := Option.not_isSome_iff_eq_none.mp hc2
            simp [Board.move_piece, Board.get_piece, Board.remove_piece,
              Board.add_piece, h1, h2, hpc, hc2n, heq, except_bind_ok, except_throw,
              cell_setCell, Ne.symm heq]
      · simp [Board.move_piece, Board.get_piece, h1, h2, hpc, except_bind_ok,
          except_bind_error, except_throw]
  · simp [Board.move_piece, Board.get_piece, h1, except_bind_error, except_throw]

theorem list_legal_moves_simulated_eq_gen (g : ChessStub) (pos : Position) :
    g.list_legal_moves pos true = g.list_legal_moves_gen pos true := by
  unfold ChessStub.list_legal_moves ChessStub.list_legal_moves_st
  cases h : g.list_legal_moves_gen pos true <;> simp [h]

/-! ### Claim C10: the freshly constructed game state -/

/-- C10: constructing a new game state yields a board with every valid square
empty (no setup at construction), turn White (0), and empty captured-piece
ledgers for both sides. -/
theorem c10_initial_state :
    ChessStub.init.turn = 0 ∧ ChessStub.init.captured_W = [] ∧
    ChessStub.init.captured_B = [] ∧
    ∀ p : Position, Board.is_valid_position p = true →
      ChessStub.init.board.cell p = none :=
  ⟨rfl, rfl, rfl, fun _ _ => rfl⟩

/-- Witness for C10 at the concrete square (3, 4). -/
theorem c10_initial_state_witness : ChessStub.init.board.cell (3, 4) = none :=
  c10_initial_state.2.2.2 (3, 4) (by decide)

/-! ### Claim C2: play_move -/

/-- Characterization of play_move shared by claims C2 and C8: it is exactly
Board.move_piece followed by next_turn, and on success the ledger is
unchanged, the turn flipped once, and the destination had been empty. -/
theorem play_move_char (g : ChessStub) (p1 p2 : Position) :
    g.play_move p1 p2 =
      (g.board.move_piece p1 p2).map (fun b => ChessStub.next_turn { g with board := b }) ∧
    ∀ g', g.play_move p1 p2 = .ok g' →
      g'.captured_W = g.captured_W ∧ g'.captured_B = g.captured_B ∧
      g'.turn = (if g.turn = 0 then 1 else 0) ∧ g.board.cell p2 = none := by
  have hmain : g.play_move p1 p2 =
      (g.board.move_piece p1 p2).map (fun b => ChessStub.next_turn { g with board := b }) := by
    unfold ChessStub.play_move
    cases h : g.board.move_piece p1 p2 <;>
      simp [h, Except.map, except_bind_ok, except_bind_error]
  refine ⟨hmain, fun g' hok => ?_⟩
  rw [hmain] at hok
  cases h : g.board.move_piece p1 p2 with
  | error e => rw [h] at hok; simp [Except.map] at hok
  | ok b =>
    rw [h] at hok
    simp only [Except.map, Except.ok.injEq] at hok
    have hdest : g.board.cell p2 = none := by
      rw [move_piece_eq] at h
      by_cases h1 : Board.is_valid_position p1 = false
      · simp [h1] at h
      · by_cases hc1 : g.board.cell p1 = none
        · simp [h1, hc1] at h
        · by_cases h2 : Board.is_valid_position p2 = false
          · simp [h1, hc1, h2] at h
          · by_cases hc2 : (g.board.cell p2).isSome
            · simp [h1, hc1, h2, hc2] at h
            · exact Option.not_isSome_iff_eq_none.mp hc2
    subst hok
    unfold ChessStub.next_turn
    by_cases ht : g.turn = 0 <;> simp [ht, hdest]

/-- C2: play_move applies the board move unconditionally (it is exactly
Board.move_piece followed by next_turn, with no legality validation of its
own) and flips the turn; on success the captured-piece ledger is exactly as
before, extended by every piece captured by the board move - and the board
move captures nothing, since its success requires the destination square to
have been empty (final conjunct), so the extension is empty. -/
theorem c2_play_move (g : ChessStub) (p1 p2 : Position) :
    g.play_move p1 p2 =
      (g.board.move_piece p1 p2).map (fun b => ChessStub.next_turn { g with board := b }) ∧
    ∀ g', g.play_move p1 p2 = .ok g' →
      g'.captured_W = g.captured_W ∧ g'.captured_B = g.captured_B ∧
      g'.turn = (if g.turn = 0 then 1 else 0) ∧ g.board.cell p2 = none :=
  play_move_char g p1 p2

/-- Witness for C2: a successful concrete move on a one-pawn board. -/
def c2_game : ChessStub :=
  ⟨Board.init.setCell (6, 0) (some ⟨Color.W, PieceType.P⟩), 0, [], []⟩

theorem c2_play_move_witness :
    ((c2_game.play_move (6, 0) (5, 0)).toOption.getD c2_game).turn = 1 := by
  have h2 := (c2_play_move c2_game (6, 0) (5, 0)).2
    ((c2_game.play_move (6, 0) (5, 0)).toOption.getD c2_game) rfl
  rw [h2.2.2.1]
  rfl

/-! ### Claim C4: list_legal_moves does not touch the live state -/

theorem would_be_check_st_snd (g : ChessStub) (p1 p2 : Position) :
    (g.would_be_check_st p1 p2).2 = g := by
  unfold ChessStub.would_be_check_st
  cases h : g.play_move p1 p2 <;> simp [h]

theorem legal_filter_st_snd (pos : Position) :
    ∀ (l : List Position) (g : ChessStub), (ChessStub.legal_filter_st g pos l).2 = g := by
  intro l
  induction l with
  | nil => intro g; rfl
  | cons m rest ih =>
    intro g
    unfold ChessStub.legal_filter_st
    have hw : g.would_be_check_st pos m = ((g.would_be_check_st pos m).1, g) := by
      have h0 := would_be_check_st_snd g pos m
      cases hx : g.would_be_check_st pos m with
      | mk a b => rw [hx] at h0; simp at h0; simp [h0]
    rw [hw]
    cases hres : (g.would_be_check_st pos m).1 with
    | error e => simp
    | ok c =>
      simp only
      have hr := ih g
      cases hrest : ChessStub.legal_filter_st g pos rest with
      | mk res2 g2 =>
        rw [hrest] at hr
        simp only at hr
        cases res2 <;> simpa using hr

/-- C4: a list_legal_moves call in non-simulated mode leaves the live game
state unchanged - the receiver returned by the threaded translation (board
contents, turn and captured-piece ledgers included) is the receiver passed in,
whether the call returns a move list or propagates an exception, because every
candidate is evaluated by _would_be_check on an independent deep clone. -/
theorem c4_live_state_unchanged (g : ChessStub) (pos : Position) :
    (g.list_legal_moves_st pos false).2 = g := by
  unfold ChessStub.list_legal_moves_st
  cases h : g.list_legal_moves_gen pos false with
  | error e => simp
  | ok result => simp [legal_filter_st_snd]

/-! ### Claim C7: piece equality -/

/-- A Piece instance as Python compares it: board.py class Piece defines no
custom equality operator, so == between two Piece objects is default object
identity.  objId models the allocation identity that distinguishes separately
constructed objects. -/
structure PieceObj where
  objId : Nat
  color : Color
  ptype : PieceType
deriving DecidableEq, Repr

/-- Python == on Piece objects: object identity (board.py Piece defines no
custom equality), i.e. comparison of allocation identities. -/
def piece_py_eq (p q : PieceObj) : Bool := p.objId == q.objId

/-- C7 counterexample: two separately constructed pieces with the same color
and the same type do not compare equal under the == the source provides
(default object identity), contradicting the claim that equal color and type
suffice. -/
theorem c7_piece_equality_counterexample :
    (⟨0, Color.W, PieceType.P⟩ : PieceObj).color = (⟨1, Color.W, PieceType.P⟩ : PieceObj).color ∧
    (⟨0, Color.W, PieceType.P⟩ : PieceObj).ptype = (⟨1, Color.W, PieceType.P⟩ : PieceObj).ptype ∧
    piece_py_eq ⟨0, Color.W, PieceType.P⟩ ⟨1, Color.W, PieceType.P⟩ = false ∧
    (⟨0, Color.W, PieceType.P⟩ : PieceObj) ≠ ⟨1, Color.W, PieceType.P⟩ := by decide

/-- C7 amended: as mathematical values, two pieces are equal iff color and
type match, and this is the equality of the embedded Piece type; but the ==
of the source compares object identity, so it identifies two Piece objects iff
they are the same allocation, not iff their color and type agree. -/
theorem c7_piece_equality_amended :
    (∀ p q : Piece, p = q ↔ p.color = q.color ∧ p.ptype = q.ptype) ∧
    (∀ p q : PieceObj, piece_py_eq p q = true ↔ p.objId = q.objId) := by
  constructor
  · intro p q
    constructor
    · intro h; rw [h]; exact ⟨rfl, rfl⟩
    · intro h; cases p; cases q; cases h.1; cases h.2; rfl
  · intro p q
    simp [piece_py_eq]

/-- Witness for C7 at two concrete equal-component pieces. -/
theorem c7_piece_equality_witness :
    (⟨Color.W, PieceType.P⟩ : Piece) = ⟨Color.W, PieceType.P⟩ :=
  (c7_piece_equality_amended.1 ⟨Color.W, PieceType.P⟩ ⟨Color.W, PieceType.P⟩).mpr ⟨rfl, rfl⟩

/-! ### Claim C8: turn alternation -/

theorem play_move_turn (g : ChessStub) (p1 p2 : Position) (g' : ChessStub)
    (h : g.play_move p1 p2 = .ok g') : g'.turn = if g.turn = 0 then 1 else 0 := by
  have h2 := ((play_move_char g p1 p2).2 g' h).2.2.1
  exact h2

theorem play_moves_turn (ms : List (Position × Position)) :
    ∀ (g g' : ChessStub), (g.turn = 0 ∨ g.turn = 1) →
      g.play_moves ms = .ok g' → g'.turn = (g.turn + (ms.length : Int)) % 2 := by
  induction ms with
  | nil =>
    intro g g' h01 h
    cases h
    rcases h01 with h0 | h0 <;> simp [h0]
  | cons m rest ih =>
    intro g g' h01 h
    unfold ChessStub.play_moves at h
    cases hm : g.play_move m.1 m.2 with
    | error e => rw [hm] at h; simp [except_bind_error] at h
    | ok g1 =>
      rw [hm, except_bind_ok] at h
      have ht1 : g1.turn = if g.turn = 0 then 1 else 0 := play_move_turn g m.1 m.2 g1 hm
      have h01' : g1.turn = 0 ∨ g1.turn = 1 := by
        rw [ht1]; by_cases h0 : g.turn = 0 <;> simp [h0]
      have := ih g1 g' h01' h
      rw [this, ht1]
      rcases h01 with h0 | h0 <;> simp [h0] <;> omega

/-- C8: every successful play_move flips the turn exactly once, and after a
sequence of n successful play_move calls from a state whose turn is White (0)
the turn is White if n is even and Black (1) if n is odd. -/
theorem c8_turn_alternation :
    (∀ (g : ChessStub) (p1 p2 : Position) (g' : ChessStub),
      g.play_move p1 p2 = .ok g' → g'.turn = if g.turn = 0 then 1 else 0) ∧
    (∀ (g : ChessStub) (ms : List (Position × Position)) (t : Int),
      g.turn = 0 → g.turn_after ms = .ok t →
      t = if ms.length % 2 = 0 then 0 else 1) := by
  refine ⟨play_move_turn, fun g ms t h0 h => ?_⟩
  unfold ChessStub.turn_after at h
  cases hp : g.play_moves ms with
  | error e => rw [hp] at h; simp [Except.map] at h
  | ok g' =>
    rw [hp] at h
    simp only [Except.map, Except.ok.injEq] at h
    have := play_moves_turn ms g g' (Or.inl h0) hp
    rw [h0] at this
    subst h
    rw [this]
    rcases Nat.even_or_odd ms.length with he | ho
    · have : ms.length % 2 = 0 := Nat.even_iff.mp he
      simp [this]
      omega
    · have : ms.length % 2 = 1 := Nat.odd_iff.mp ho
      simp [this]
      omega

/-- Witness for C8: two successful moves of the same pawn; the turn returns
to White. -/
def c8_game : ChessStub :=
  ⟨Board.init.setCell (6, 0) (some ⟨Color.W, PieceType.P⟩), 0, [], []⟩

theorem c8_turn_alternation_witness :
    (0 : Int) = if ([((6, 0), (5, 0)), ((5, 0), (4, 0))] :
        List (Position × Position)).length % 2 = 0 then 0 else 1 :=
  c8_turn_alternation.2 c8_game [((6, 0), (5, 0)), ((5, 0), (4, 0))] 0 rfl (by decide)

/-! ### Claim C1: move_piece -/

/-- Board with a white pawn on (0,0) and a black pawn on (1,1) (claim C1). -/
def c1_board : Board :=
  (Board.init.setCell (0, 0) (some ⟨Color.W, PieceType.P⟩)).setCell (1, 1)
    (some ⟨Color.B, PieceType.P⟩)

/-- C1 counterexample: both squares valid and distinct, the source square
occupied and the destination occupied by an opposing piece; the claim says
move_piece succeeds here, captures the occupant of the destination and returns
it, but board.py move_piece raises ValueError("Invalid move") instead: it
requires the destination to be empty. -/
theorem c1_move_piece_counterexample :
    Board.is_valid_position (0, 0) = true ∧ Board.is_valid_position (1, 1) = true ∧
    ((0, 0) : Position) ≠ (1, 1) ∧
    (c1_board.cell (0, 0)).isSome = true ∧ (c1_board.cell (1, 1)).isSome = true ∧
    c1_board.move_piece (0, 0) (1, 1) = .error ChessError.invalidMoveMsg := by
  refine ⟨by decide, by decide, by decide, by decide, by decide, ?_⟩
  rfl

/-- C1 amended: for valid positions, move_piece fails with the single
"Invalid move" error both when the source holds no piece and when the
destination is occupied (so it never captures); the distinct same-square error
message is unreachable, since source occupied plus destination empty already
forces the squares apart; otherwise it clears the source and places the moved
piece at the destination, returning no captured piece.  Capturing is the
separate capture_piece operation, which requires both squares occupied and
distinct, and returns the previous occupant of the destination. -/
theorem c1_move_piece_amended (b : Board) (p1 p2 : Position)
    (h1 : Board.is_valid_position p1 = true) (h2 : Board.is_valid_position p2 = true) :
    b.move_piece p1 p2 ≠ .error ChessError.sameSquareMoveMsg ∧
    ((b.cell p1 = none ∨ (b.cell p2).isSome = true) →
      b.move_piece p1 p2 = .error ChessError.invalidMoveMsg) ∧
    (∀ pc, b.cell p1 = some pc → b.cell p2 = none →
      b.move_piece p1 p2 = .ok ((b.setCell p1 none).setCell p2 (some pc))) ∧
    (∀ pc1 pc2, b.cell p1 = some pc1 → b.cell p2 = some pc2 → p1 ≠ p2 →
      b.capture_piece p1 p2 =
        .ok (some pc2, ((b.setCell p2 none).setCell p1 none).setCell p2 (some pc1))) := by
  rw [move_piece_eq]
  refine ⟨?_, ?_, ?_, ?_⟩
  · cases hc1 : b.cell p1 with
    | none => simp [h1, h2, hc1]
    | some pc =>
      by_cases hc2 : (b.cell p2).isSome
      · simp [h1, h2, hc1, hc2]
      · have heq : p1 ≠ p2 := by
          intro h
          rw [← h, hc1] at hc2
          simp at hc2
        simp [h1, h2, hc1, hc2, heq]
  · intro hbad
    cases hc1 : b.cell p1 with
    | none => simp [h1, h2, hc1]
    | some pc =>
      have hc2 : (b.cell p2).isSome = true := by
        rcases hbad with h | h
        · rw [hc1] at h; cases h
        · exact h
      simp [h1, h2, hc1, hc2]
  · intro pc hc1 hc2
    have heq : p1 ≠ p2 := by
      intro h
      rw [← h, hc1] at hc2
      cases hc2
    simp [h1, h2, hc1, hc2, heq]
  · intro pc1 pc2 hc1 hc2 hne
    have hcell1 : (b.setCell p2 none).cell p1 = some pc1 := by
      rw [cell_setCell]
      simp [hne, hc1]
    have hcell2 : (b.setCell p2 none).cell p2 = none := by
      rw [cell_setCell]
      simp
    unfold Board.capture_piece Board.remove_piece
    rw [get_piece_of_valid b p1 h1, get_piece_of_valid b p2 h2]
    simp [h1, h2, hc1, hc2, hne, hcell1, hcell2, move_piece_eq,
      except_bind_ok, except_bind_error, except_throw, except_pure]

/-- Board with a single white rook on (0,0) for the C1 witness. -/
def c1_wboard : Board := Board.init.setCell (0, 0) (some ⟨Color.W, PieceType.R⟩)

/-- Witness for C1 at a concrete successful move to an empty square. -/
theorem c1_move_piece_witness :
    c1_wboard.move_piece (0, 0) (3, 3) =
      .ok ((c1_wboard.setCell (0, 0) none).setCell (3, 3) (some ⟨Color.W, PieceType.R⟩)) :=
  (c1_move_piece_amended c1_wboard (0, 0) (3, 3) (by decide) (by decide)).2.2.1
    ⟨Color.W, PieceType.R⟩ rfl rfl

/-! ### Claim C9: the board after set_up -/

/-- All 64 valid positions, in row-major order (counting helper). -/
def all_positions : List Position :=
  (List.range 8).flatMap (fun (r : Nat) =>
    (List.range 8).map (fun (f : Nat) => ((r : Int), (f : Int))))

/-- Number of occupied squares on the board. -/
def piece_count (b : Board) : Nat :=
  (all_positions.filter (fun p => (b.cell p).isSome)).length

/-- Number of squares occupied by a piece of the given color. -/
def color_count (b : Board) (c : Color) : Nat :=
  (all_positions.filter (fun p => (b.cell p).any (fun q => q.color == c))).length

/-- The back-rank order as the spec words it: Rook, Knight, Bishop, Queen,
King, Bishop, Knight, Rook (definition following the spec, for comparison
with the board the code builds). -/
def spec_back_rank : List PieceType :=
  [PieceType.R, PieceType.N, PieceType.B, PieceType.Q,
   PieceType.K, PieceType.B, PieceType.N, PieceType.R]

/-- The starting array as the spec describes it: Black back rank on rank 0,
black pawns on rank 1, white pawns on rank 6, white back rank on rank 7,
every other square empty. -/
def spec_setup_cell (r f : Fin 8) : Option Piece :=
  if r.val = 0 then some ⟨Color.B, spec_back_rank.getD f.val PieceType.P⟩
  else if r.val = 1 then some ⟨Color.B, PieceType.P⟩
  else if r.val = 6 then some ⟨Color.W, PieceType.P⟩
  else if r.val = 7 then some ⟨Color.W, spec_back_rank.getD f.val PieceType.P⟩
  else none

/-- C9: from any starting board, set_up succeeds and produces a board holding
exactly 32 pieces, 16 of each color, matching the spec pattern (Black back
rank Rook-Knight-Bishop-Queen-King-Bishop-Knight-Rook on rank 0, black pawns
on rank 1, white pawns on rank 6, the mirrored white back rank on rank 7) on
every valid square, all other squares empty. -/
theorem c9_set_up_standard (b : Board) :
    ∃ b0, Board.set_up b = .ok b0 ∧ piece_count b0 = 32 ∧
      color_count b0 Color.W = 16 ∧ color_count b0 Color.B = 16 ∧
      ∀ r f : Fin 8, b0.cell ((r.val : Int), (f.val : Int)) = spec_setup_cell r f := by
  refine ⟨(Board.set_up Board.init).toOption.getD Board.init, ?_, ?_, ?_, ?_, ?_⟩
  · rfl
  · decide
  · decide
  · decide
  · decide

/-! ### Claim C5: the ray cast -/

/-- The square reached from pos after i steps of the direction vector (helper
for stating the ray claims). -/
def stepN (pos dir : Position) (i : Nat) : Position :=
  (pos.1 + (i : Int) * dir.1, pos.2 + (i : Int) * dir.2)

/-- The ray as the spec words it (section 4.2, definition following the spec
for comparison with the code): starting from the piece's square, repeatedly
step by the direction vector; for each stepped square, off-board stops, a
same-color piece stops without its square, an opposing piece is included and
stops, an empty square is included and stepping continues.  Fuel 8 bounds the
stepping: from a valid start the eighth square stepped by a nonzero direction
is always off-board. -/
def spec_ray_aux (b : Board) (c : Color) : Position → Position → Nat → List Position
  | _, _, 0 => []
  | cur, dir, fuel + 1 =>
    let move : Position := (cur.1 + dir.1, cur.2 + dir.2)
    if Board.is_valid_position move then
      match b.cell move with
      | some q => if q.color = c then [] else [move]
      | none => move :: spec_ray_aux b c move dir fuel
    else []

/-- The ray of the spec from the piece square. -/
def spec_ray (b : Board) (c : Color) (pos dir : Position) : List Position :=
  spec_ray_aux b c pos dir 8

/-- Game with a single white rook on (0,0) (claim C5). -/
def c5_game : ChessStub :=
  ⟨Board.init.setCell (0, 0) (some ⟨Color.W, PieceType.R⟩), 0, [], []⟩

/-- C5 counterexample: for the nonzero but non-unit direction (2,0) from an
occupied square, the code does not return the squares obtained by repeatedly
stepping by the direction vector: after the first step of (2,0) the loop
increments the offset by its sign, i.e. by (1,0), so it visits every rank from
2 to 7, while the ray of the spec visits ranks 2, 4, 6. -/
theorem c5_ray_counterexample :
    (c5_game.board.cell (0, 0)).isSome = true ∧
    ¬((2 : Int) = 0 ∧ (0 : Int) = 0) ∧
    c5_game.long_moves (0, 0) (2, 0) =
      .ok [(2, 0), (3, 0), (4, 0), (5, 0), (6, 0), (7, 0)] ∧
    spec_ray c5_game.board Color.W (0, 0) (2, 0) = [(2, 0), (4, 0), (6, 0)] ∧
    ([(2, 0), (3, 0), (4, 0), (5, 0), (6, 0), (7, 0)] : List Position) ≠
      [(2, 0), (4, 0), (6, 0)] := by
  refine ⟨by decide, by decide, by decide, by decide, by decide⟩

/-- Bool-to-arithmetic reading of position validity. -/
theorem is_valid_position_iff (p : Position) :
    Board.is_valid_position p = true ↔ 0 ≤ p.1 ∧ p.1 ≤ 7 ∧ 0 ≤ p.2 ∧ p.2 ≤ 7 := by
  simp [Board.is_valid_position, Bool.and_eq_true, decide_eq_true_eq, and_assoc]

/-- For a unit direction component and a positive step count, the sign
increment of the loop coincides with one more step of the component. -/
theorem sign_step (d : Int) (hd : d = -1 ∨ d = 0 ∨ d = 1) (k : Nat) (hk : 1 ≤ k) :
    (k : Int) * d + ((k : Int) * d).sign = ((k : Int) + 1) * d := by
  have hkpos : (0 : Int) < (k : Int) := by exact_mod_cast hk
  rcases hd with h | h | h <;> subst h
  · have : (k : Int) * -1 = -(k : Int) := by ring
    rw [this, Int.sign_neg, Int.sign_eq_one_iff_pos.mpr hkpos]
    ring
  · simp
  · rw [mul_one, mul_one, Int.sign_eq_one_iff_pos.mpr hkpos]

/-- The loop of _long_moves agrees with the ray of the spec for unit
directions: with offset (k*di, k*dj) the loop continues the spec ray whose
current square is the (k-1)-th step. -/
theorem long_moves_loop_eq_spec_ray_aux (b : Board) (c : Color) (di dj : Int)
    (hdi : di = -1 ∨ di = 0 ∨ di = 1) (hdj : dj = -1 ∨ dj = 0 ∨ dj = 1) :
    ∀ (fuel : Nat) (r f : Int) (k : Nat), 1 ≤ k →
      ChessStub.long_moves_loop b c r f ((k : Int) * di) ((k : Int) * dj) fuel =
        spec_ray_aux b c (r + ((k : Int) - 1) * di, f + ((k : Int) - 1) * dj)
          (di, dj) fuel := by
  intro fuel
  induction fuel with
  | zero => intro r f k hk; rfl
  | succ n ih =>
    intro r f k hk
    have hm1 : r + ((k : Int) - 1) * di + di = r + (k : Int) * di := by ring
    have hm2 : f + ((k : Int) - 1) * dj + dj = f + (k : Int) * dj := by ring
    show ChessStub.long_moves_loop b c r f ((k : Int) * di) ((k : Int) * dj) (n + 1) = _
    unfold ChessStub.long_moves_loop spec_ray_aux
    simp only [hm1, hm2]
    split
    · cases hcell : b.cell (r + (k : Int) * di, f + (k : Int) * dj) with
      | some q => rfl
      | none =>
        simp only
        congr 1
        rw [sign_step di hdi k hk, sign_step dj hdj k hk]
        have hnext := ih r f (k + 1) (by omega)
        have hc1 : ((k + 1 : Nat) : Int) = (k : Int) + 1 := by push_cast; ring
        rw [hc1] at hnext
        have hc2 : (k : Int) + 1 - 1 = (k : Int) := by ring
        rw [hc2] at hnext
        exact hnext
    · rfl

theorem stepN_one (cur d : Position) : stepN cur d 1 = (cur.1 + d.1, cur.2 + d.2) := by
  simp [stepN]

theorem stepN_shift (cur d : Position) (i : Nat) :
    stepN (stepN cur d 1) d i = stepN cur d (i + 1) := by
  simp only [stepN, Prod.mk.injEq]
  push_cast
  constructor <;> ring

theorem map_stepN_shift (cur d : Position) (m : Nat) :
    (List.range' 2 m).map (stepN cur d) = (List.range' 1 m).map (stepN (stepN cur d 1) d) := by
  rw [List.range'_eq_map_range, List.range'_eq_map_range, List.map_map, List.map_map]
  apply List.map_congr_left
  intro i _
  simp only [Function.comp_apply, stepN_shift]
  simp only [stepN, Prod.mk.injEq]
  push_cast
  constructor <;> ring

/-- On the spec ray: with the first k-1 stepped squares empty and on-board and
a blocking piece on the k-th, the ray is exactly the steps 1..k-1 followed by
the blocker square when it is opposing, and nothing further. -/
theorem spec_ray_aux_blocker (b : Board) (c : Color) (d : Position) (q : Piece) :
    ∀ (k fuel : Nat) (cur : Position), 1 ≤ k → k ≤ fuel →
      (∀ i : Nat, 1 ≤ i → i < k →
        Board.is_valid_position (stepN cur d i) = true ∧ b.cell (stepN cur d i) = none) →
      Board.is_valid_position (stepN cur d k) = true →
      b.cell (stepN cur d k) = some q →
      spec_ray_aux b c cur d fuel =
        (List.range' 1 (k - 1)).map (stepN cur d) ++
          (if q.color = c then [] else [stepN cur d k]) := by
  intro k
  induction k with
  | zero => intro fuel cur h1; exact absurd h1 (by omega)
  | succ k ih =>
    intro fuel cur h1 hfuel hempties hvk hq
    obtain ⟨n, rfl⟩ : ∃ n, fuel = n + 1 := ⟨fuel - 1, by omega⟩
    by_cases hk0 : k = 0
    · subst hk0
      norm_num at hvk hq ⊢
      rw [stepN_one] at hvk hq
      simp only [spec_ray_aux, hvk, hq, if_true, stepN_one, List.range'_zero,
        List.map_nil, List.nil_append]
    · have hfirst := hempties 1 le_rfl (by omega)
      rw [stepN_one] at hfirst
      simp only [spec_ray_aux, hfirst.1, hfirst.2, if_true]
      have hshiftk : stepN (stepN cur d 1) d k = stepN cur d (k + 1) := stepN_shift cur d k
      have hrec := ih n (stepN cur d 1) (by omega) (by omega)
        (fun i hi1 hi2 => by
          rw [stepN_shift]
          exact hempties (i + 1) (by omega) (by omega))
        (by rw [hshiftk]; exact hvk)
        (by rw [hshiftk]; exact hq)
      rw [← stepN_one, hrec, hshiftk]
      rw [show (k + 1 - 1) = (k - 1) + 1 from by omega, List.range'_succ,
        List.map_cons, List.cons_append, map_stepN_shift]

/-- C5 amended: restricted to the unit direction vectors (components in
{-1, 0, 1}, not both zero - exactly the directions the piece dispatch of the
source uses), _long_moves from an occupied valid square returns precisely the
ray of the spec - repeated stepping that stops at the board edge, stops before
a same-color piece without its square, and includes an opposing piece's square
before stopping and every empty square while continuing; consequently, with
the first k-1 stepped squares empty and a blocker at distance k, it returns
the steps at distances 1..k for an opposing blocker and 1..k-1 for a
same-color blocker. -/
theorem c5_ray_amended (g : ChessStub) (pos : Position) (piece : Piece) (di dj : Int)
    (hv : Board.is_valid_position pos = true)
    (hp : g.board.cell pos = some piece)
    (hdi : di = -1 ∨ di = 0 ∨ di = 1) (hdj : dj = -1 ∨ dj = 0 ∨ dj = 1)
    (hnz : ¬(di = 0 ∧ dj = 0)) :
    g.long_moves pos (di, dj) = .ok (spec_ray g.board piece.color pos (di, dj)) ∧
    (∀ (k : Nat) (q : Piece), 1 ≤ k →
      (∀ i : Nat, 1 ≤ i → i < k →
        Board.is_valid_position (stepN pos (di, dj) i) = true ∧
        g.board.cell (stepN pos (di, dj) i) = none) →
      Board.is_valid_position (stepN pos (di, dj) k) = true →
      g.board.cell (stepN pos (di, dj) k) = some q →
      g.long_moves pos (di, dj) =
        .ok ((List.range' 1 (k - 1)).map (stepN pos (di, dj)) ++
          (if q.color = piece.color then [] else [stepN pos (di, dj) k]))) := by
  have h1 := long_moves_loop_eq_spec_ray_aux g.board piece.color di dj hdi hdj 8 pos.1 pos.2
    1 le_rfl
  have hcast : ((1 : Nat) : Int) = 1 := rfl
  rw [hcast, one_mul, one_mul] at h1
  have hzero : (1 : Int) - 1 = 0 := by norm_num
  rw [hzero, zero_mul, zero_mul, add_zero, add_zero] at h1
  have hmain : g.long_moves pos (di, dj) =
      .ok (spec_ray g.board piece.color pos (di, dj)) := by
    unfold ChessStub.long_moves
    rw [if_neg hnz, get_piece_of_valid g.board pos hv, hp, except_bind_ok]
    simp only [except_pure, spec_ray, Except.ok.injEq]
    rw [h1]
  refine ⟨hmain, fun k q hk hempty hvk hq => ?_⟩
  have hk8 : k ≤ 8 := by
    rw [is_valid_position_iff] at hv hvk
    simp only [stepN] at hvk
    rcases hdi with h | h | h <;> rcases hdj with h' | h' | h' <;> subst_vars <;> omega
  rw [hmain]
  congr 1
  exact spec_ray_aux_blocker g.board piece.color (di, dj) q k 8 pos hk hk8 hempty hvk hq

/-- Game with a white rook on (0,0) and a black pawn on (3,0) for the C5
witness. -/
def c5_wgame : ChessStub :=
  ⟨(Board.init.setCell (0, 0) (some ⟨Color.W, PieceType.R⟩)).setCell (3, 0)
      (some ⟨Color.B, PieceType.P⟩), 0, [], []⟩

/-- Witness for C5 at an opposing blocker at distance 3 along (1,0). -/
theorem c5_ray_amended_witness :
    c5_wgame.long_moves (0, 0) (1, 0) =
      .ok ((List.range' 1 2).map (stepN (0, 0) (1, 0)) ++ [stepN (0, 0) (1, 0) 3]) := by
  have h := (c5_ray_amended c5_wgame (0, 0) ⟨Color.W, PieceType.R⟩ 1 0 (by decide) (by decide)
      (Or.inr (Or.inr rfl)) (Or.inr (Or.inl rfl)) (by simp)).2 3 ⟨Color.B, PieceType.P⟩
      (by omega)
      (by intro i hi1 hi2; interval_cases i <;> exact ⟨by decide, by decide⟩)
      (by decide) (by decide)
  simpa using h

/-! ### Claim C6: pawn move generation -/

theorem option_any_eq_true {α : Type} (o : Option α) (p : α → Bool) :
    (o.any p = true) ↔ ∃ a, o = some a ∧ p a = true := by
  cases o <;> simp

theorem is_empty_ok_true_iff (b : Board) (p : Position)
    (h : Board.is_valid_position p = true) :
    (b.is_empty p = .ok true) ↔ b.cell p = none := by
  rw [is_empty_of_valid b p h]
  simp [Option.isNone_iff_eq_none]

theorem pawn_captures_mem (b : Board) (c : Color) (row1 f : Int) (m : Position) :
    (m ∈ ([-1, 1] : List Int).filterMap (fun i =>
      if Board.is_valid_position (row1, f + i) ∧
          (b.cell (row1, f + i)).any (fun q => q.color != c) then
        some ((row1, f + i) : Position)
      else none)) ↔
    (∃ df : Int, (df = -1 ∨ df = 1) ∧ m = (row1, f + df) ∧
      Board.is_valid_position m = true ∧
      ∃ q, b.cell m = some q ∧ q.color ≠ c) := by
  simp only [List.mem_filterMap, List.mem_cons, List.not_mem_nil, or_false,
    List.mem_singleton]
  constructor
  · rintro ⟨i, hi, hf⟩
    split_ifs at hf with hcond
    · obtain ⟨hval, hany⟩ := hcond
      obtain ⟨q, hq, hpq⟩ := (option_any_eq_true _ _).mp hany
      injection hf with hf
      subst hf
      exact ⟨i, hi, rfl, hval, q, hq, bne_iff_ne.mp hpq⟩
  · rintro ⟨df, hdf, rfl, hval, q, hq, hne⟩
    refine ⟨df, hdf, ?_⟩
    rw [if_pos ⟨hval, (option_any_eq_true _ _).mpr ⟨q, hq, bne_iff_ne.mpr hne⟩⟩]

/-- Membership in the pawn block of list_legal_moves, for an abstract single
square row row1, double square row row2 and starting rank sr (instantiated per
color): the forward moves when on-board and empty with the double additionally
requiring the starting rank and both squares empty, and the diagonal squares
exactly when on-board and holding an opposing piece. -/
theorem pawn_block_mem (b : Board) (c : Color) (r f row1 row2 sr : Int)
    (hsr1 : r = sr → Board.is_valid_position (row1, f) = true)
    (hsr2 : r = sr → Board.is_valid_position (row2, f) = true) (m : Position) :
    (m ∈ ((if Board.is_valid_position (row1, f) ∧ b.is_empty (row1, f) = .ok true then
        (if r = sr ∧ Board.is_valid_position (row2, f) ∧ b.is_empty (row2, f) = .ok true then
          [((row1, f) : Position), (row2, f)]
         else [(row1, f)])
      else []) ++
      ([-1, 1] : List Int).filterMap (fun i =>
        if Board.is_valid_position (row1, f + i) ∧
            (b.cell (row1, f + i)).any (fun q => q.color != c) then
          some ((row1, f + i) : Position)
        else none))) ↔
    ((m = (row1, f) ∧ Board.is_valid_position m = true ∧ b.cell m = none) ∨
     (m = (row2, f) ∧ r = sr ∧ b.cell (row1, f) = none ∧ b.cell m = none) ∨
     (∃ df : Int, (df = -1 ∨ df = 1) ∧ m = (row1, f + df) ∧
        Board.is_valid_position m = true ∧
        ∃ q, b.cell m = some q ∧ q.color ≠ c)) := by
  rw [List.mem_append, pawn_captures_mem]
  have hfwd : (m ∈ (if Board.is_valid_position (row1, f) ∧ b.is_empty (row1, f) = .ok true then
        (if r = sr ∧ Board.is_valid_position (row2, f) ∧ b.is_empty (row2, f) = .ok true then
          [((row1, f) : Position), (row2, f)]
         else [(row1, f)])
      else [])) ↔
      ((m = (row1, f) ∧ Board.is_valid_position m = true ∧ b.cell m = none) ∨
       (m = (row2, f) ∧ r = sr ∧ b.cell (row1, f) = none ∧ b.cell m = none)) := by
    by_cases h1v : Board.is_valid_position (row1, f) = true
    · by_cases h1e : b.cell (row1, f) = none
      · rw [if_pos ⟨h1v, (is_empty_ok_true_iff b _ h1v).mpr h1e⟩]
        by_cases hsr : r = sr
        · by_cases h2e : b.cell (row2, f) = none
          · rw [if_pos ⟨hsr, hsr2 hsr, (is_empty_ok_true_iff b _ (hsr2 hsr)).mpr h2e⟩]
            simp only [List.mem_cons, List.not_mem_nil, or_false, List.mem_singleton]
            constructor
            · rintro (rfl | rfl)
              · exact Or.inl ⟨rfl, h1v, h1e⟩
              · exact Or.inr ⟨rfl, hsr, h1e, h2e⟩
            · rintro (⟨rfl, -, -⟩ | ⟨rfl, -, -, -⟩)
              · exact Or.inl rfl
              · exact Or.inr rfl
          · rw [if_neg (by
              rintro ⟨-, hv2, he2⟩
              exact h2e ((is_empty_ok_true_iff b _ hv2).mp he2))]
            simp only [List.mem_singleton]
            constructor
            · rintro rfl
              exact Or.inl ⟨rfl, h1v, h1e⟩
            · rintro (⟨rfl, -, -⟩ | ⟨rfl, -, -, hc2⟩)
              · rfl
              · exact absurd hc2 h2e
        · rw [if_neg (by rintro ⟨hs, -, -⟩; exact hsr hs)]
          simp only [List.mem_singleton]
          constructor
          · rintro rfl
            exact Or.inl ⟨rfl, h1v, h1e⟩
          · rintro (⟨rfl, -, -⟩ | ⟨-, hs, -, -⟩)
            · rfl
            · exact absurd hs hsr
      · rw [if_neg (by
          rintro ⟨-, he⟩
          exact h1e ((is_empty_ok_true_iff b _ h1v).mp he))]
        simp only [List.not_mem_nil, false_iff]
        rintro (⟨rfl, -, hc⟩ | ⟨-, -, hc, -⟩) <;> exact h1e hc
    · rw [if_neg (by rintro ⟨hv1, -⟩; exact h1v hv1)]
      simp only [List.not_mem_nil, false_iff]
      rintro (⟨rfl, hm, -⟩ | ⟨-, hs, -, -⟩)
      · exact h1v hm
      · exact h1v (hsr1 hs)
  rw [hfwd, or_assoc]

/-- C6: for every game state and every pawn on a valid square, the simulated
(pseudo-legal) moves are exactly: the single forward square when it is
on-board and empty; additionally the double forward square when the pawn is on
its starting rank (rank 6 for White, rank 1 for Black) and both the
intervening and destination squares are empty - a blocked single step excludes
the double step; and each on-board forward-diagonal square exactly when it
holds an opposing piece.  White moves toward decreasing rank, Black toward
increasing rank. -/
theorem c6_pawn_moves (g : ChessStub) (pos : Position) (piece : Piece)
    (hv : Board.is_valid_position pos = true)
    (hp : g.board.cell pos = some piece)
    (hP : piece.ptype = PieceType.P) :
    ∃ ms, g.list_legal_moves pos true = .ok ms ∧
      ∀ m : Position,
        (m ∈ ms ↔
          ((m = ((if piece.color = Color.W then pos.1 - 1 else pos.1 + 1), pos.2) ∧
              Board.is_valid_position m = true ∧ g.board.cell m = none) ∨
           (m = ((if piece.color = Color.W then pos.1 - 2 else pos.1 + 2), pos.2) ∧
              pos.1 = (if piece.color = Color.W then 6 else 1) ∧
              g.board.cell ((if piece.color = Color.W then pos.1 - 1 else pos.1 + 1), pos.2)
                = none ∧
              g.board.cell m = none) ∨
           (∃ df : Int, (df = -1 ∨ df = 1) ∧
              m = ((if piece.color = Color.W then pos.1 - 1 else pos.1 + 1), pos.2 + df) ∧
              Board.is_valid_position m = true ∧
              ∃ q, g.board.cell m = some q ∧ q.color ≠ piece.color))) := by
  rw [list_legal_moves_simulated_eq_gen]
  unfold ChessStub.list_legal_moves_gen
  rw [if_neg (by simp [hv]), get_piece_of_valid g.board pos hv, hp, except_bind_ok]
  simp only [Bool.true_eq_false, false_and, if_false, hP, except_pure]
  cases hcol : piece.color with
  | W =>
    simp only [reduceIte]
    refine ⟨_, rfl, fun m => ?_⟩
    exact pawn_block_mem g.board Color.W pos.1 pos.2 (pos.1 - 1) (pos.1 - 2) 6
      (fun hsr => by
        rw [is_valid_position_iff] at hv ⊢
        simp only at hv ⊢
        omega)
      (fun hsr => by
        rw [is_valid_position_iff] at hv ⊢
        simp only at hv ⊢
        omega) m
  | B =>
    simp only [reduceCtorEq, if_false, ite_false]
    refine ⟨_, rfl, fun m => ?_⟩
    exact pawn_block_mem g.board Color.B pos.1 pos.2 (pos.1 + 1) (pos.1 + 2) 1
      (fun hsr => by
        rw [is_valid_position_iff] at hv ⊢
        simp only at hv ⊢
        omega)
      (fun hsr => by
        rw [is_valid_position_iff] at hv ⊢
        simp only at hv ⊢
        omega) m

/-- Game with a white pawn on its starting square (6,0) and a black knight on
(5,1) for the C6 witness. -/
def c6_game : ChessStub :=
  ⟨(Board.init.setCell (6, 0) (some ⟨Color.W, PieceType.P⟩)).setCell (5, 1)
      (some ⟨Color.B, PieceType.N⟩), 0, [], []⟩

/-- Witness for C6: the single forward step of the white pawn on (6,0) is
among its generated moves. -/
theorem c6_pawn_moves_witness :
    ((5 : Int), (0 : Int)) ∈ ((c6_game.list_legal_moves (6, 0) true).toOption.getD []) := by
  obtain ⟨ms, h1, h2⟩ := c6_pawn_moves c6_game (6, 0) ⟨Color.W, PieceType.P⟩
    (by decide) (by decide) rfl
  rw [h1]
  exact (h2 (5, 0)).mpr (Or.inl ⟨by norm_num, by decide, by decide⟩)

/-! ### Claim C3: check detection -/

/-- The color whose turn it is (0 is White, 1 is Black; helper for stating
claim C3). -/
def turn_color (g : ChessStub) : Color := if g.turn = 0 then Color.W else Color.B

theorem color_value_ne_iff (g : ChessStub) (h01 : g.turn = 0 ∨ g.turn = 1) (c : Color) :
    (c.value ≠ g.turn) ↔ c ≠ turn_color g := by
  rcases h01 with h | h <;> cases c <;> simp [Color.value, turn_color, h]

theorem two_colors (x y z : Color) (h1 : x ≠ y) (h2 : y ≠ z) : x = z := by
  cases x <;> cases y <;> cases z <;> simp_all

theorem mem_pieces_on_board (b : Board) (pos : Position) (piece : Piece) :
    ((pos, piece) ∈ b.pieces_on_board) ↔
      (Board.is_valid_position pos = true ∧ b.cell pos = some piece) := by
  unfold Board.pieces_on_board
  rw [List.mem_flatMap]
  constructor
  · rintro ⟨r, hr, hmem⟩
    rw [List.mem_filterMap] at hmem
    obtain ⟨f, hf, hmatch⟩ := hmem
    rw [List.mem_range] at hr hf
    simp only [Option.map_eq_some'] at hmatch
    obtain ⟨q, hc, heq⟩ := hmatch
    rw [Prod.mk.injEq] at heq
    obtain ⟨hpos, hq⟩ := heq
    subst hq
    subst hpos
    refine ⟨?_, hc⟩
    rw [is_valid_position_iff]
    simp only
    omega
  · rintro ⟨hvp, hcp⟩
    rw [is_valid_position_iff] at hvp
    refine ⟨pos.1.toNat, ?_, ?_⟩
    · rw [List.mem_range]; omega
    · rw [List.mem_filterMap]
      refine ⟨pos.2.toNat, by rw [List.mem_range]; omega, ?_⟩
      have hcast : (((pos.1.toNat : Nat) : Int), ((pos.2.toNat : Nat) : Int)) = pos := by
        obtain ⟨p1, p2⟩ := pos
        rw [Prod.mk.injEq]
        simp only at hvp
        constructor <;> omega
      rw [hcast]
      simp only [hcp, Option.map_some']

theorem knight_king_filter_sound (b : Board) (c : Color) (r f : Int)
    (offsets : List (Int × Int)) (m : Position)
    (hm : m ∈ offsets.filterMap (fun d =>
      if Board.is_valid_position (r + d.1, f + d.2) then
        if (b.cell (r + d.1, f + d.2)).any (fun q => q.color == c) then none
        else some ((r + d.1, f + d.2) : Position)
      else none)) :
    Board.is_valid_position m = true ∧ ∀ q, b.cell m = some q → q.color ≠ c := by
  simp only [List.mem_filterMap] at hm
  obtain ⟨d, hd, hf⟩ := hm
  split_ifs at hf with h1 h2
  injection hf with hf
  subst hf
  refine ⟨h1, fun q hq hqc => ?_⟩
  exact h2 ((option_any_eq_true _ _).mpr ⟨q, hq, by simp [hqc]⟩)

theorem long_moves_loop_sound (b : Board) (c : Color) (r f : Int) :
    ∀ (fuel : Nat) (i j : Int) (m : Position),
      m ∈ ChessStub.long_moves_loop b c r f i j fuel →
      Board.is_valid_position m = true ∧ ∀ q, b.cell m = some q → q.color ≠ c := by
  intro fuel
  induction fuel with
  | zero => intro i j m hm; cases hm
  | succ n ih =>
    intro i j m hm
    simp only [ChessStub.long_moves_loop] at hm
    by_cases hval : Board.is_valid_position (r + i, f + j) = true
    · rw [if_pos hval] at hm
      cases hcell : b.cell (r + i, f + j) with
      | some q =>
        simp only [hcell] at hm
        by_cases hqc : q.color = c
        · simp [hqc] at hm
        · rw [if_neg hqc] at hm
          simp only [List.mem_singleton] at hm
          subst hm
          refine ⟨hval, fun q' hq' => ?_⟩
          rw [hcell] at hq'
          injection hq' with hq'
          subst hq'
          exact hqc
      | none =>
        simp only [hcell, List.mem_cons] at hm
        rcases hm with rfl | hm
        · refine ⟨hval, fun q' hq' => ?_⟩
          rw [hcell] at hq'
          exact absurd hq' (by simp)
        · exact ih _ _ m hm
    · rw [if_neg hval] at hm
      simp at hm

theorem long_moves_ok (g : ChessStub) (pos : Position) (piece : Piece) (d : Position)
    (hv : Board.is_valid_position pos = true) (hp : g.board.cell pos = some piece)
    (hd : ¬(d.1 = 0 ∧ d.2 = 0)) :
    g.long_moves pos d =
      .ok (ChessStub.long_moves_loop g.board piece.color pos.1 pos.2 d.1 d.2 8) := by
  unfold ChessStub.long_moves
  rw [if_neg hd, get_piece_of_valid g.board pos hv, hp, except_bind_ok]
  rfl

theorem slider_fold_sound (g : ChessStub) (pos : Position) (piece : Piece)
    (hv : Board.is_valid_position pos = true) (hp : g.board.cell pos = some piece) :
    ∀ (dirs : List (Int × Int)), (∀ d ∈ dirs, ¬(d.1 = 0 ∧ d.2 = 0)) →
      ∀ acc : List Position,
        ∃ ms, (dirs.foldlM (fun acc d => do
            let ms ← g.long_moves pos d
            pure (acc ++ ms)) acc) = .ok ms ∧
          ∀ m ∈ ms, m ∈ acc ∨ (Board.is_valid_position m = true ∧
            ∀ q, g.board.cell m = some q → q.color ≠ piece.color) := by
  intro dirs
  induction dirs with
  | nil => exact fun _ acc => ⟨acc, rfl, fun m hm => Or.inl hm⟩
  | cons d rest ih =>
    intro hdirs acc
    obtain ⟨ms, hms, hsound⟩ := ih (fun d' hd' => hdirs d' (by simp [hd']))
      (acc ++ ChessStub.long_moves_loop g.board piece.color pos.1 pos.2 d.1 d.2 8)
    refine ⟨ms, ?_, fun m hm => ?_⟩
    · rw [List.foldlM_cons, long_moves_ok g pos piece d hv hp (hdirs d (by simp)),
        except_bind_ok, except_pure, except_bind_ok]
      exact hms
    · rcases hsound m hm with hacc | hgood
      · rcases List.mem_append.mp hacc with h | h
        · exact Or.inl h
        · exact Or.inr (long_moves_loop_sound g.board piece.color pos.1 pos.2 8 d.1 d.2 m h)
      · exact Or.inr hgood

/-- Every move generated by list_legal_moves in simulated mode lands on a
valid square that does not hold a piece of the moving color. -/
theorem gen_simulated_sound (g : ChessStub) (pos : Position) (piece : Piece)
    (hv : Board.is_valid_position pos = true) (hp : g.board.cell pos = some piece) :
    ∃ ms, g.list_legal_moves_gen pos true = .ok ms ∧
      ∀ m ∈ ms, Board.is_valid_position m = true ∧
        ∀ q, g.board.cell m = some q → q.color ≠ piece.color := by
  unfold ChessStub.list_legal_moves_gen
  rw [if_neg (by simp [hv]), get_piece_of_valid g.board pos hv, hp, except_bind_ok]
  simp only [Bool.true_eq_false, false_and, if_false, except_pure]
  cases hpt : piece.ptype with
  | P =>
    rw [is_valid_position_iff] at hv
    cases hcol : piece.color with
    | W =>
      simp only [reduceIte]
      refine ⟨_, rfl, fun m hm => ?_⟩
      have h := (pawn_block_mem g.board Color.W pos.1 pos.2 (pos.1 - 1) (pos.1 - 2) 6
        (fun hsr => by rw [is_valid_position_iff]; simp only; omega)
        (fun hsr => by rw [is_valid_position_iff]; simp only; omega) m).mp hm
      rcases h with ⟨rfl, hval, hcell⟩ | ⟨rfl, hsr, hs1, hcell⟩ | ⟨df, hdf, rfl, hval, q, hq, hne⟩
      · exact ⟨hval, fun q hq => absurd (hcell ▸ hq) (by simp)⟩
      · refine ⟨by rw [is_valid_position_iff]; simp only; omega,
          fun q hq => absurd (hcell ▸ hq) (by simp)⟩
      · refine ⟨hval, fun q' hq' => ?_⟩
        rw [hq] at hq'
        injection hq' with hq'
        subst hq'
        exact hne
    | B =>
      simp only [reduceCtorEq, if_false, ite_false]
      refine ⟨_, rfl, fun m hm => ?_⟩
      have h := (pawn_block_mem g.board Color.B pos.1 pos.2 (pos.1 + 1) (pos.1 + 2) 1
        (fun hsr => by rw [is_valid_position_iff]; simp only; omega)
        (fun hsr => by rw [is_valid_position_iff]; simp only; omega) m).mp hm
      rcases h with ⟨rfl, hval, hcell⟩ | ⟨rfl, hsr, hs1, hcell⟩ | ⟨df, hdf, rfl, hval, q, hq, hne⟩
      · exact ⟨hval, fun q hq => absurd (hcell ▸ hq) (by simp)⟩
      · refine ⟨by rw [is_valid_position_iff]; simp only; omega,
          fun q hq => absurd (hcell ▸ hq) (by simp)⟩
      · refine ⟨hval, fun q' hq' => ?_⟩
        rw [hq] at hq'
        injection hq' with hq'
        subst hq'
        exact hne
  | N =>
    exact ⟨_, rfl, fun m hm => knight_king_filter_sound g.board piece.color pos.1 pos.2 _ m hm⟩
  | B =>
    obtain ⟨ms, hms, hsound⟩ := slider_fold_sound g pos piece hv hp
      [(-1, -1), (-1, 1), (1, -1), (1, 1)] (by decide) []
    exact ⟨ms, hms, fun m hm => (hsound m hm).resolve_left (by simp)⟩
  | R =>
    obtain ⟨ms, hms, hsound⟩ := slider_fold_sound g pos piece hv hp
      [(-1, 0), (0, -1), (0, 1), (1, 0)] (by decide) []
    exact ⟨ms, hms, fun m hm => (hsound m hm).resolve_left (by simp)⟩
  | Q =>
    obtain ⟨ms, hms, hsound⟩ := slider_fold_sound g pos piece hv hp
      [(-1, -1), (-1, 1), (1, -1), (1, 1), (-1, 0), (0, -1), (0, 1), (1, 0)] (by decide) []
    exact ⟨ms, hms, fun m hm => (hsound m hm).resolve_left (by simp)⟩
  | K =>
    exact ⟨_, rfl, fun m hm => knight_king_filter_sound g.board piece.color pos.1 pos.2 _ m hm⟩

theorem king_scan_char (b : Board) :
    ∀ ms : List Position, (∀ m ∈ ms, Board.is_valid_position m = true) →
      ∃ hit, ChessStub.king_scan b ms = .ok hit ∧
        (hit = true ↔ ∃ m ∈ ms, ∃ t, b.cell m = some t ∧ t.ptype = PieceType.K) := by
  intro ms
  induction ms with
  | nil => exact fun _ => ⟨false, rfl, by simp⟩
  | cons m rest ih =>
    intro hval
    obtain ⟨hit, hrec, hiff⟩ := ih (fun m' hm' => hval m' (by simp [hm']))
    have hvm := hval m (by simp)
    simp only [ChessStub.king_scan]
    rw [get_piece_of_valid b m hvm, except_bind_ok]
    cases hcm : b.cell m with
    | some t =>
      by_cases hK : t.ptype = PieceType.K
      · refine ⟨true, by simp [hK], ?_⟩
        simp only [true_iff]
        exact ⟨m, by simp, t, hcm, hK⟩
      · refine ⟨hit, by simp [hK, hrec], ?_⟩
        rw [hiff]
        constructor
        · rintro ⟨m', hm', t', ht', hKt'⟩
          exact ⟨m', by simp [hm'], t', ht', hKt'⟩
        · rintro ⟨m', hm', t', ht', hKt'⟩
          rcases List.mem_cons.mp hm' with rfl | hm'
          · rw [hcm] at ht'
            injection ht' with ht'
            subst ht'
            exact absurd hKt' hK
          · exact ⟨m', hm', t', ht', hKt'⟩
    | none =>
      refine ⟨hit, hrec, ?_⟩
      rw [hiff]
      constructor
      · rintro ⟨m', hm', t', ht', hKt'⟩
        exact ⟨m', by simp [hm'], t', ht', hKt'⟩
      · rintro ⟨m', hm', t', ht', hKt'⟩
        rcases List.mem_cons.mp hm' with rfl | hm'
        · rw [hcm] at ht'
          exact absurd ht' (by simp)
        · exact ⟨m', hm', t', ht', hKt'⟩

theorem check_scan_char (g : ChessStub) :
    ∀ l : List (Position × Piece),
      (∀ e ∈ l, Board.is_valid_position e.1 = true ∧ g.board.cell e.1 = some e.2) →
      ∃ res, ChessStub.check_scan g l = .ok res ∧
        (res = true ↔ ∃ e ∈ l, e.2.color.value ≠ g.turn ∧
          ∃ ms, g.list_legal_moves_gen e.1 true = .ok ms ∧
            ∃ m ∈ ms, ∃ t, g.board.cell m = some t ∧ t.ptype = PieceType.K) := by
  intro l
  induction l with
  | nil => exact fun _ => ⟨false, rfl, by simp⟩
  | cons e rest ih =>
    intro hpre
    obtain ⟨pos, piece⟩ := e
    obtain ⟨hv, hc⟩ := hpre (pos, piece) (by simp)
    obtain ⟨res, hres, hiff⟩ := ih (fun e' he' => hpre e' (by simp [he']))
    obtain ⟨ms, hms, hsound⟩ := gen_simulated_sound g pos piece hv hc
    obtain ⟨hit, hks, hkiff⟩ := king_scan_char g.board ms (fun m hm => (hsound m hm).1)
    simp only [ChessStub.check_scan]
    by_cases hturn : piece.color.value ≠ g.turn
    · rw [if_pos hturn, hms, except_bind_ok, hks, except_bind_ok]
      cases hit with
      | true =>
        refine ⟨true, by simp, ?_⟩
        simp only [true_iff]
        exact ⟨(pos, piece), by simp, hturn, ms, hms, hkiff.mp rfl⟩
      | false =>
        refine ⟨res, by simp [hres], ?_⟩
        rw [hiff]
        constructor
        · rintro ⟨e', he', h1, h2⟩
          exact ⟨e', by simp [he'], h1, h2⟩
        · rintro ⟨e', he', h1, ms', hms', hkings⟩
          rcases List.mem_cons.mp he' with rfl | he'
          · rw [hms] at hms'
            injection hms' with hms'
            subst hms'
            exact absurd (hkiff.mpr hkings) (by simp)
          · exact ⟨e', he', h1, ms', hms', hkings⟩
    · rw [if_neg hturn]
      refine ⟨res, hres, ?_⟩
      rw [hiff]
      constructor
      · rintro ⟨e', he', h1, h2⟩
        exact ⟨e', by simp [he'], h1, h2⟩
      · rintro ⟨e', he', h1, h2⟩
        rcases List.mem_cons.mp he' with rfl | he'
        · exact absurd h1 hturn
        · exact ⟨e', he', h1, h2⟩

/-- C3: for a game state with a well-defined turn and a unique to-move-side
king at square ks, is_in_check returns true if and only if some piece of the
side not to move has, among its pseudo-legal moves computed in simulated mode,
a destination equal to the king square ks. -/
theorem c3_is_in_check (g : ChessStub) (ks : Position)
    (h01 : g.turn = 0 ∨ g.turn = 1)
    (hking : g.board.cell ks = some ⟨turn_color g, PieceType.K⟩)
    (huniq : ∀ p : Position, Board.is_valid_position p = true →
      ∀ q : Piece, g.board.cell p = some q → q.ptype = PieceType.K →
        q.color = turn_color g → p = ks) :
    (g.is_in_check = .ok true ↔
      ∃ pos piece, (pos, piece) ∈ g.board.pieces_on_board ∧
        piece.color ≠ turn_color g ∧
        ∃ ms, g.list_legal_moves pos true = .ok ms ∧ ks ∈ ms) := by
  have hpre : ∀ e ∈ g.board.pieces_on_board,
      Board.is_valid_position e.1 = true ∧ g.board.cell e.1 = some e.2 := by
    rintro ⟨pos, piece⟩ he
    exact (mem_pieces_on_board g.board pos piece).mp he
  obtain ⟨res, hres, hiff⟩ := check_scan_char g g.board.pieces_on_board hpre
  unfold ChessStub.is_in_check
  rw [hres]
  constructor
  · intro h
    injection h with h
    obtain ⟨e, he, hturn, ms, hms, m, hm, t, ht, htK⟩ := hiff.mp h
    obtain ⟨pos, piece⟩ := e
    obtain ⟨hvp, hcp⟩ := hpre (pos, piece) he
    obtain ⟨ms', hms', hsound⟩ := gen_simulated_sound g pos piece hvp hcp
    rw [hms] at hms'
    injection hms' with hms'
    subst hms'
    have hcolpiece : piece.color ≠ turn_color g :=
      (color_value_ne_iff g h01 piece.color).mp hturn
    have hopp := (hsound m hm).2 t ht
    have htcol : t.color = turn_color g := two_colors t.color piece.color (turn_color g)
      (fun hx => hopp hx) hcolpiece
    have hmks : m = ks := by
      refine huniq m (hsound m hm).1 t ht htK htcol
    subst hmks
    exact ⟨pos, piece, he, hcolpiece, ms, by
      rw [list_legal_moves_simulated_eq_gen]; exact hms, hm⟩
  · rintro ⟨pos, piece, he, hcol, ms, hms, hks⟩
    rw [list_legal_moves_simulated_eq_gen] at hms
    have : res = true := hiff.mpr ⟨(pos, piece), he, (color_value_ne_iff g h01 _).mpr hcol,
      ms, hms, ks, hks, ⟨turn_color g, PieceType.K⟩, hking, rfl⟩
    rw [this]

/-- Game with a white king on (7,4), a black rook on (0,4), the file between
them empty, White to move (claim C3 witness). -/
def c3_game : ChessStub :=
  ⟨⟨fun q => if q = ((7 : Int), (4 : Int)) then some ⟨Color.W, PieceType.K⟩
    else if q = ((0 : Int), (4 : Int)) then some ⟨Color.B, PieceType.R⟩
    else none⟩, 0, [], []⟩

/-- Witness for C3: the position above is check for the side to move. -/
theorem c3_is_in_check_witness : c3_game.is_in_check = .ok true := by
  have huniq : ∀ p : Position, Board.is_valid_position p = true →
      ∀ q : Piece, c3_game.board.cell p = some q → q.ptype = PieceType.K →
        q.color = turn_color c3_game → p = ((7 : Int), (4 : Int)) := by
    intro p hp q hq hK hcol
    simp only [c3_game] at hq
    split_ifs at hq with h1 h2
    · exact h1
    · injection hq with hq
      subst hq
      exact absurd hK (by decide)
  refine (c3_is_in_check c3_game (7, 4) (Or.inl rfl) (by decide) huniq).mpr
    ⟨(0, 4), ⟨Color.B, PieceType.R⟩, by decide, by decide,
      [(0, 3), (0, 2), (0, 1), (0, 0), (0, 5), (0, 6), (0, 7),
       (1, 4), (2, 4), (3, 4), (4, 4), (5, 4), (6, 4), (7, 4)], by decide, by decide⟩

end ChessSpec
